import Mathlib

/-!
Verification development for the apex-replay backend.

The definitions below are a shallow embedding of the Python sources
`src/backend/services/data_processor.py` and
`src/backend/services/replay_processor.py`.  Python floats are modelled as
exact rationals (`ℚ`) where only ordered-field arithmetic occurs, and as real
numbers (`ℝ`) in the replay normalizer, whose glitch filter takes a square
root.  Pandas tables are modelled as lists of records; `None`-propagating
fallible operations are modelled with `Except`/`Option`.
-/

/- ## String helpers

`data_processor.py` does case-insensitive substring matching on filenames
(`_matches_patterns`, `_name_matches_race`).  The helpers below implement the
needed string operations on explicit character lists so that they evaluate
inside the kernel.  -/

/-- Lowercase every character of a character list (models `str.lower`). -/
def lowerChars (l : List Char) : List Char := l.map Char.toLower

/-- Boolean prefix test on character lists. -/
def isPrefixChars : List Char → List Char → Bool
  | [], _ => true
  | _ :: _, [] => false
  | p :: ps, h :: hs => p == h && isPrefixChars ps hs

/-- Boolean substring test on character lists (models Python `in` and a
regex search for a literal pattern). -/
def containsSub (hay pat : List Char) : Bool :=
  match hay with
  | [] => isPrefixChars pat []
  | _ :: rest => isPrefixChars pat hay || containsSub rest pat

/-- Substring test on strings. -/
def containsStr (hay pat : String) : Bool := containsSub hay.data pat.data

/-- Replace every occurrence of a single character by a replacement list
(models `str.replace` with the one-character pattern used in
`_build_race_tokens`, namely `race.replace("R", "race")`). -/
def replaceChar (pat : Char) (rep : List Char) : List Char → List Char
  | [] => []
  | c :: rest => if c == pat then rep ++ replaceChar pat rep rest else c :: replaceChar pat rep rest

/-- Whitespace test for the characters relevant to `str.strip`. -/
def isSpaceChar (c : Char) : Bool := c == ' ' || c == '\t' || c == '\n' || c == '\r'

/-- Strip leading and trailing whitespace (models `str.strip`). -/
def stripChars (l : List Char) : List Char :=
  ((l.dropWhile isSpaceChar).reverse.dropWhile isSpaceChar).reverse

/-- First-occurrence deduplication with an explicit `seen` accumulator.
Models both `dict.fromkeys` in `_build_race_tokens` and the `seen` set of
`ReplayProcessor._downsample_timeline`. -/
def dedupKeep [DecidableEq α] (seen : List α) : List α → List α
  | [] => []
  | x :: xs => if x ∈ seen then dedupKeep seen xs else x :: dedupKeep (x :: seen) xs

/- ## Tabular store adapter: `RaceDataProcessor._find_data_file`

A circuit directory is a list of `DirFile` entries.  The modification time is
carried in the model so that freshness-dependent claims can be stated; note
that `_find_data_file` itself never reads it. -/

/-- File extension as seen by the two `Path.glob` calls of `_find_data_file`. -/
inductive FileExt where
  | parquet
  | csv
deriving DecidableEq

/-- A directory entry: file name (as matched by the keyword patterns), its
extension, and its modification time. -/
structure DirFile where
  name : String
  ext : FileExt
  mtime : ℤ
deriving DecidableEq

/-- Keyword patterns of `RaceDataProcessor.FILE_PATTERNS`, compiled: the
regex `lap[_ ]?time` is a case-insensitive search for `laptime`, `lap_time`
or `lap time`, and unknown kinds fall back to the kind itself
(`_get_patterns`). -/
def matchesPatterns (kind name : String) : Bool :=
  let n := lowerChars name.data
  if kind = "telemetry" then containsSub n "telemetry".data
  else if kind = "lap_time" then
    containsSub n "lap_time".data || containsSub n "lap time".data || containsSub n "laptime".data
  else if kind = "lap_start" then
    containsSub n "lap_start".data || containsSub n "lap start".data || containsSub n "lapstart".data
  else if kind = "lap_end" then
    containsSub n "lap_end".data || containsSub n "lap end".data || containsSub n "lapend".data
  else containsSub n (lowerChars kind.data)

/-- Race tokens of `RaceDataProcessor._build_race_tokens`: for a race `R1`
these are `race 1`, `r1` and `race1`, deduplicated preserving order. -/
def raceTokens (race : String) : List (List Char) :=
  let r := stripChars race.data
  if r = [] then []
  else
    dedupKeep []
      [ (if 1 < r.length then lowerChars ("race ".data ++ r.drop 1) else lowerChars r),
        lowerChars r,
        lowerChars (replaceChar 'R' "race".data r) ]

/-- Models `RaceDataProcessor._name_matches_race`: an empty token list matches
everything, otherwise some token must occur in the lowercased name. -/
def nameMatchesRace (loweredName : List Char) (tokens : List (List Char)) : Bool :=
  match tokens with
  | [] => true
  | _ => tokens.any (fun t => containsSub loweredName t)

/-- The full per-file match of `_find_data_file`: keyword patterns plus race
token. -/
def fileMatches (kind race : String) (f : DirFile) : Bool :=
  matchesPatterns kind f.name && nameMatchesRace (lowerChars f.name.data) (raceTokens race)

/-- Name ordering used by the `sorted(..., key=lambda x: x.name)` calls. -/
def nameLE (a b : DirFile) : Prop := a.name ≤ b.name

instance : DecidableRel nameLE := fun a b => inferInstanceAs (Decidable (a.name ≤ b.name))

instance : IsTotal DirFile nameLE := ⟨fun a b => le_total a.name b.name⟩

instance : IsTrans DirFile nameLE := ⟨fun _ _ _ h1 h2 => le_trans h1 h2⟩

/-- Models `RaceDataProcessor._find_data_file`: with `prefer_parquet` the name-sorted
matching `.parquet` candidates are consulted first and the first one is
returned when any exists; only otherwise is the first name-sorted matching
`.csv` candidate returned.  No modification time is consulted. -/
def findDataFile (files : List DirFile) (kind race : String) (preferParquet : Bool) :
    Option DirFile :=
  let csvPick :=
    ((files.filter (fun f => f.ext == FileExt.csv && fileMatches kind race f)).insertionSort
      nameLE).head?
  if preferParquet then
    match (files.filter
        (fun f => f.ext == FileExt.parquet && fileMatches kind race f)).insertionSort nameLE with
    | p :: _ => some p
    | [] => csvPick
  else csvPick

/- ## Golden lap selection: `find_golden_lap`, `_lap_has_telemetry` -/

/-- One telemetry sample as relevant to lap slicing: vehicle identity, lap
number and the timestamp used by the final sort of `get_lap_telemetry`. -/
structure TelemetryRow where
  chassis : String
  car_number : ℤ
  lap : ℤ
  timestamp : ℤ
deriving DecidableEq

/-- Timestamp order for `telemetry.sort_values('timestamp')`. -/
def tsLE (a b : TelemetryRow) : Prop := a.timestamp ≤ b.timestamp

instance : DecidableRel tsLE := fun a b => inferInstanceAs (Decidable (a.timestamp ≤ b.timestamp))

/-- Models `RaceDataProcessor.get_lap_telemetry`: restrict to the lap (this models
`load_telemetry(..., lap=lap)`), fail when empty, then restrict to the
chassis and car number, fail when empty, and return the slice sorted by
timestamp. -/
def getLapTelemetry (tel : List TelemetryRow) (chassis : String) (car lap : ℤ) :
    Except String (List TelemetryRow) :=
  let byLap := tel.filter (fun r => r.lap == lap)
  match byLap with
  | [] => Except.error "No telemetry found for lap"
  | _ =>
    let slice := byLap.filter (fun r => r.chassis == chassis && r.car_number == car)
    match slice with
    | [] => Except.error "No telemetry found for chassis and car"
    | _ => Except.ok (slice.insertionSort tsLE)

/-- Models `RaceDataProcessor._lap_has_telemetry`: any exception from
`get_lap_telemetry` yields `false`, otherwise the slice must be non-empty. -/
def lapHasTelemetry (tel : List TelemetryRow) (chassis : String) (car lap : ℤ) : Bool :=
  match getLapTelemetry tel chassis car lap with
  | Except.ok rows => decide (0 < rows.length)
  | Except.error _ => false

/-- A Lap Time Record as produced by `calculate_lap_times` (already filtered
to the valid band): vehicle identity, lap number, derived lap time. -/
structure LapTimeRecord where
  chassis : String
  car_number : ℤ
  lap : ℤ
  lap_time : ℚ
deriving DecidableEq

/-- Ascending lap-time order for `lap_times.sort_values('lap_time')`. -/
def lapTimeLE (a b : LapTimeRecord) : Prop := a.lap_time ≤ b.lap_time

instance : DecidableRel lapTimeLE :=
  fun a b => inferInstanceAs (Decidable (a.lap_time ≤ b.lap_time))

instance : IsTotal LapTimeRecord lapTimeLE := ⟨fun a b => le_total a.lap_time b.lap_time⟩

instance : IsTrans LapTimeRecord lapTimeLE := ⟨fun _ _ _ h1 h2 => le_trans h1 h2⟩

/-- The golden-lap record assembled by `find_golden_lap` (the constant
`circuit`/`race` echo fields and the formatted time string are omitted). -/
structure GoldenLap where
  chassis : String
  car_number : ℤ
  lap : ℤ
  time : ℚ
deriving DecidableEq

/-- The two failure modes of `find_golden_lap`: `ValueError("No valid lap
times found")` and `ValueError("No lap with telemetry available ...")`. -/
inductive GoldenLapFailure where
  | noValidLap
  | noTelemetryAvailable
deriving DecidableEq

/-- Models `RaceDataProcessor.find_golden_lap`: sort the Lap Time Records ascending
by lap time and return the first candidate whose (chassis, car_number, lap)
slice has telemetry. -/
def findGoldenLap (lapTimes : List LapTimeRecord) (tel : List TelemetryRow) :
    Except GoldenLapFailure GoldenLap :=
  match lapTimes with
  | [] => Except.error GoldenLapFailure.noValidLap
  | _ =>
    match (lapTimes.insertionSort lapTimeLE).find?
        (fun c => lapHasTelemetry tel c.chassis c.car_number c.lap) with
    | some g => Except.ok ⟨g.chassis, g.car_number, g.lap, g.lap_time⟩
    | none => Except.error GoldenLapFailure.noTelemetryAvailable

/- ## Sector bucketing: `compare_laps` step 3 and `_build_hot_zone_metrics` -/

/-- Python `int()` applied to a float: truncation toward zero. -/
def pyTrunc (q : ℚ) : ℤ := if 0 ≤ q then ⌊q⌋ else ⌈q⌉

/-- Python float floor division `a // b`. -/
def pyFloorDiv (a b : ℚ) : ℚ := ((⌊a / b⌋ : ℤ) : ℚ)

/-- Sector assignment of `compare_laps`:
`(df['Laptrigger_lapdist_dls'] // sector_size).astype(int)`. -/
def compareSectorIndex (sectorSize d : ℚ) : ℤ := pyTrunc (pyFloorDiv d sectorSize)

/-- Sector assignment of `_build_hot_zone_metrics`:
`(segment['Laptrigger_lapdist_dls'] // sector_size).astype(int)`. -/
def hotZoneSectorIndex (sectorSize d : ℚ) : ℤ := pyTrunc (pyFloorDiv d sectorSize)

/- ## Recommendations: `compare_laps` step 5 and `_generate_recommendation` -/

/-- One row of the inner-joined per-sector comparison table, after the three
delta columns have been added (user minus golden).  `dist_user` is the
`Laptrigger_lapdist_dls_user` column. -/
structure SectorComparison where
  sector : ℤ
  dist_user : ℚ
  speed_diff : ℚ
  throttle_diff : ℚ
  brake_diff : ℚ
deriving DecidableEq

/-- Ascending `speed_diff` order underlying `nsmallest(3, 'speed_diff')`. -/
def speedDiffLE (a b : SectorComparison) : Prop := a.speed_diff ≤ b.speed_diff

instance : DecidableRel speedDiffLE :=
  fun a b => inferInstanceAs (Decidable (a.speed_diff ≤ b.speed_diff))

instance : IsTotal SectorComparison speedDiffLE := ⟨fun a b => le_total a.speed_diff b.speed_diff⟩

instance : IsTrans SectorComparison speedDiffLE := ⟨fun _ _ _ h1 h2 => le_trans h1 h2⟩

/-- Models `comparison.nsmallest(3, 'speed_diff')`: the three most negative speed
deltas. -/
def worstThreeSectors (cmp : List SectorComparison) : List SectorComparison :=
  (cmp.insertionSort speedDiffLE).take 3

/-- The sectors not selected by `nsmallest(3, 'speed_diff')`. -/
def remainingSectors (cmp : List SectorComparison) : List SectorComparison :=
  (cmp.insertionSort speedDiffLE).drop 3

/-- Models `RaceDataProcessor._generate_recommendation`.  In `compare_laps` the
`brake_diff` and `throttle_diff` columns always exist and are non-null (the
source channels are zero-filled beforehand), so the `has_brake`/`has_throttle`
guards are `True` here. -/
def generateRecommendation (s : SectorComparison) : String × String :=
  if 20 < s.brake_diff then
    ("Braking too aggressively",
      "Bleed off ~" ++ toString (pyTrunc s.brake_diff) ++ " bar of brake pressure")
  else if s.throttle_diff < -10 then
    ("Hesitant throttle application",
      "Increase throttle by ~" ++ toString |pyTrunc s.throttle_diff| ++ "% exiting the corner")
  else
    ("Suboptimal corner speed",
      "Tighten the line and release the brake earlier to carry more speed")

/-- One entry of the `recommendations` list built in `compare_laps`. -/
structure Recommendation where
  sector : ℤ
  distance : ℤ
  speed_loss : ℚ
  issue : String
  suggestion : String
  estimated_gain : ℚ
deriving DecidableEq

/-- The recommendation record built for one worst sector in `compare_laps`. -/
def recommendationOf (s : SectorComparison) : Recommendation :=
  { sector := s.sector
    distance := pyTrunc s.dist_user
    speed_loss := |s.speed_diff|
    issue := (generateRecommendation s).1
    suggestion := (generateRecommendation s).2
    estimated_gain := |s.speed_diff| * (0.04 : ℚ) }

/-- The full recommendation list of `compare_laps`: one record per worst
sector, in `nsmallest` order. -/
def recommendationsOf (cmp : List SectorComparison) : List Recommendation :=
  (worstThreeSectors cmp).map recommendationOf

/- ## Payload sanitizer: `RaceDataProcessor._to_native` -/

/-- A Python float value: a finite value, or one of the non-finite floats. -/
inductive PyFloat where
  | fin (q : ℚ)
  | nan
  | inf
  | ninf
deriving DecidableEq

/-- Models `math.isfinite`. -/
def pyIsFinite : PyFloat → Bool
  | PyFloat.fin _ => true
  | _ => false

/-- The value universe traversed by `_to_native`: JSON-ish Python values
plus the numpy/pandas values the function special-cases (`np.generic`
scalars, `np.ndarray` of floats, `pd.Timestamp`, `pd.Series`). -/
inductive PyVal where
  | pnone
  | pbool (b : Bool)
  | pint (n : ℤ)
  | pfloat (x : PyFloat)
  | pstr (s : String)
  | npScalar (x : PyFloat)
  | npArray (xs : List PyFloat)
  | timestamp (s : String)
  | plist (xs : List PyVal)
  | ptuple (xs : List PyVal)
  | series (kvs : List (String × PyVal))
  | pdict (kvs : List (String × PyVal))

mutual

/-- Models `RaceDataProcessor._to_native`, branch for branch: dicts, lists and
tuples/sets recurse; an `np.generic` is unwrapped with `.item()` and returned
with no finiteness check; an `np.ndarray` is returned as `.tolist()` with no
finiteness check; a `pd.Timestamp` becomes its ISO string; a `pd.Series`
becomes its converted dict; a native float is finiteness-checked and replaced
by `None` when non-finite; everything else passes through. -/
def toNative : PyVal → PyVal
  | PyVal.pdict kvs => PyVal.pdict (toNativeKVs kvs)
  | PyVal.plist xs => PyVal.plist (toNativeList xs)
  | PyVal.ptuple xs => PyVal.plist (toNativeList xs)
  | PyVal.npScalar x => PyVal.pfloat x
  | PyVal.npArray xs => PyVal.plist (xs.map PyVal.pfloat)
  | PyVal.timestamp s => PyVal.pstr s
  | PyVal.series kvs => PyVal.pdict (toNativeKVs kvs)
  | PyVal.pfloat x => if pyIsFinite x then PyVal.pfloat x else PyVal.pnone
  | v => v

/-- Elementwise `_to_native` over a list value. -/
def toNativeList : List PyVal → List PyVal
  | [] => []
  | x :: xs => toNative x :: toNativeList xs

/-- Valuewise `_to_native` over dict items. -/
def toNativeKVs : List (String × PyVal) → List (String × PyVal)
  | [] => []
  | (k, v) :: kvs => (k, toNative v) :: toNativeKVs kvs

end

/- ## Progression analytics: `RaceDataProcessor._build_progression_metrics` -/

/-- One row of the vehicle's lap-time history (already band-filtered by
`calculate_lap_times`). -/
structure VehicleLap where
  lap : ℤ
  lap_time : ℚ
deriving DecidableEq

/-- Lap-number order for `laps_df.sort_values('lap')`. -/
def lapNumLE (a b : VehicleLap) : Prop := a.lap ≤ b.lap

instance : DecidableRel lapNumLE := fun a b => inferInstanceAs (Decidable (a.lap ≤ b.lap))

instance : IsTotal VehicleLap lapNumLE := ⟨fun a b => le_total a.lap b.lap⟩

instance : IsTrans VehicleLap lapNumLE := ⟨fun _ _ _ h1 h2 => le_trans h1 h2⟩

/-- The two loop variables of the plateau scan. -/
structure PlateauState where
  plateau_start : Option ℤ
  plateau_detected : Option ℤ
deriving DecidableEq

/-- Python truthiness of `None`-or-`int`: `None` and `0` are falsy. -/
def pyTruthyOpt : Option ℤ → Bool
  | none => false
  | some k => k != 0

/-- The loop body of `_build_progression_metrics`, walked over the lap rows
in lap order.  `prev` is `times[idx - 1]` (absent at index 0).  `delta_prev`
is `(previous_time - lap_time) if previous_time else 0.0`; the plateau
variables are updated exactly as in the source: inside `idx > 0`,
`plateau_start` becomes `plateau_start or row.lap` on a small delta and is
cleared otherwise, and afterwards `plateau_detected = plateau_start` whenever
`plateau_start` is truthy and the delta is small. -/
def progressionSteps : Option ℚ → PlateauState → List VehicleLap → PlateauState
  | _, st, [] => st
  | prev, st, r :: rest =>
    let dp : ℚ := match prev with
      | none => 0
      | some p => if p = 0 then 0 else p - r.lap_time
    let ps1 : Option ℤ := match prev with
      | none => st.plateau_start
      | some _ =>
        if |dp| < (0.1 : ℚ) then
          (if pyTruthyOpt st.plateau_start then st.plateau_start else some r.lap)
        else none
    let pd1 : Option ℤ :=
      if pyTruthyOpt ps1 = true ∧ |dp| < (0.1 : ℚ) then ps1 else st.plateau_detected
    progressionSteps (some r.lap_time) ⟨ps1, pd1⟩ rest

/-- The final `plateau_detected` value of `_build_progression_metrics`. -/
def plateauDetected (laps : List VehicleLap) : Option ℤ :=
  (progressionSteps none ⟨none, none⟩ (laps.insertionSort lapNumLE)).plateau_detected

/-- Whether the `"Pace plateau detected around lap ..."` insight is appended
(`if plateau_detected:` — integer truthiness). -/
def plateauInsightEmitted (laps : List VehicleLap) : Bool :=
  pyTruthyOpt (plateauDetected laps)

/-- Specification helper (for the amended claim): some adjacent lap-time
delta in the walked sequence has magnitude under 0.1 s, where the first
argument is the time of the preceding row. -/
def hasSmallDelta : ℚ → List VehicleLap → Bool
  | _, [] => false
  | p, r :: rest => decide (|p - r.lap_time| < (0.1 : ℚ)) || hasSmallDelta r.lap_time rest

/-- Specification helper (for the amended claim): `k` is the lap number of
the later row of some adjacent pair whose delta magnitude is under 0.1 s. -/
def isLaterLapOfSmallPair : ℚ → List VehicleLap → ℤ → Bool
  | _, [], _ => false
  | p, r :: rest, k =>
    (decide (|p - r.lap_time| < (0.1 : ℚ)) && k == r.lap) || isLaterLapOfSmallPair r.lap_time rest k

/-- Specification helper (for the original claim's reading): the plateau rule
of the claim text — the flagged lap is the first lap of the earliest run of
at least two consecutive small lap-to-lap deltas, and no flag exists when no
two consecutive small deltas occur. -/
def claimPlateau : ℚ → List VehicleLap → Option ℤ
  | _, [] => none
  | _, [_] => none
  | p, r :: s :: rest =>
    if |p - r.lap_time| < (0.1 : ℚ) ∧ |r.lap_time - s.lap_time| < (0.1 : ℚ) then some r.lap
    else claimPlateau r.lap_time (s :: rest)

/- ## Replay normalizer: `ReplayProcessor` -/

/-- One cleaned telemetry sample as consumed by the timeline walk of
`normalize_lap_to_timeline`: the six required channels after the
interpolate/ffill/bfill/zero-fill step (so every channel carries a value). -/
structure ReplaySample where
  dist : ℝ
  speed : ℝ
  long : ℝ
  lat : ℝ
  aps : ℝ
  brake : ℝ

/-- Models `ReplayProcessor._clean_number` on the real-number model of floats: every
representable value is finite, so the function is the identity (the
non-finite fallback to `0.0` has no preimage in the model). -/
def cleanNumber (x : ℝ) : ℝ := x

/-- The Euclidean positional displacement in metres between two samples:
`sqrt(d_lat**2 + d_long**2) * 1852`. -/
noncomputable def euclDistM (cur nxt : ReplaySample) : ℝ :=
  Real.sqrt ((nxt.lat - cur.lat) ^ 2 + (nxt.long - cur.long) ^ 2) * 1852

/-- Models `avg_speed_ms = (current['Speed'] + next_point['Speed']) / 2 / 3.6`. -/
noncomputable def avgSpeedMs (cur nxt : ReplaySample) : ℝ :=
  (cur.speed + nxt.speed) / 2 / (3.6 : ℝ)

/-- The effective distance delta used for the time step: the raw
distance-channel delta, clamped down to the positional displacement by the
distance-spike filter (`if distance > 50 and distance > eucl_dist_m * 5`). -/
noncomputable def effDistance (cur nxt : ReplaySample) : ℝ :=
  if 50 < nxt.dist - cur.dist ∧ euclDistM cur nxt * 5 < nxt.dist - cur.dist then euclDistM cur nxt
  else nxt.dist - cur.dist

/-- The elapsed-time step for a retained pair: effective distance over the
average speed, with the 1 m/s fallback when the average speed is not above
1 m/s. -/
noncomputable def timeStepOf (cur nxt : ReplaySample) : ℝ :=
  if 1 < avgSpeedMs cur nxt then effDistance cur nxt / avgSpeedMs cur nxt
  else effDistance cur nxt / 1

/-- One iteration of the pair walk of `normalize_lap_to_timeline`: `none`
when the pair is skipped (non-positive distance delta, or the teleport filter
`eucl_dist_m > 50 and eucl_dist_m > distance * 5`), otherwise the elapsed-time
step added for the emitted point. -/
noncomputable def processStep (cur nxt : ReplaySample) : Option ℝ :=
  if nxt.dist - cur.dist ≤ 0 then none
  else if 50 < euclDistM cur nxt ∧ (nxt.dist - cur.dist) * 5 < euclDistM cur nxt then none
  else some (timeStepOf cur nxt)

/-- One emitted trajectory point (`y` is always 0 in the source and is
omitted). -/
structure ReplayPoint where
  time : ℝ
  x : ℝ
  z : ℝ
  speed : ℝ
  throttle : ℝ
  brake : ℝ
  dist : ℝ

/-- The point emitted for the second sample of a retained pair. -/
def emitPoint (t : ℝ) (s : ReplaySample) : ReplayPoint :=
  { time := cleanNumber t
    x := cleanNumber s.long
    z := cleanNumber s.lat
    speed := cleanNumber s.speed
    throttle := cleanNumber s.aps
    brake := cleanNumber s.brake
    dist := cleanNumber s.dist }

/-- The pair walk of `normalize_lap_to_timeline`: consecutive sample pairs in
original order, accumulating `cumulative_time`, emitting one point per
retained pair. -/
noncomputable def walkPairs : ℝ → List ReplaySample → List ReplayPoint
  | _, [] => []
  | _, [_] => []
  | cum, a :: b :: rest =>
    match processStep a b with
    | none => walkPairs cum (b :: rest)
    | some dt => emitPoint (cum + dt) b :: walkPairs (cum + dt) (b :: rest)

/-- The column maximum `telemetry_df['Laptrigger_lapdist_dls'].max()` over a
non-empty sample list given as head and tail. -/
def maxDistOf (t : ReplaySample) (ts : List ReplaySample) : ℝ :=
  ts.foldl (fun m s => max m s.dist) t.dist

/-- Models `ReplayProcessor.max_points`. -/
def replayMaxPoints : ℕ := 4500

/-- Models `np.linspace(0, n - 1, m, dtype=int)`: evenly spaced floats from `0` to
`n - 1` truncated to integers (exact rational arithmetic models the float
computation; numpy pins the final element to the stop value exactly, as the
rational expression does). -/
def linspaceIdx (n m : ℕ) : List ℕ :=
  (List.range m).map (fun i : ℕ => (⌊(((i : ℕ) : ℚ) * ((n : ℚ) - 1)) / ((m : ℚ) - 1)⌋).toNat)

/-- Models `ReplayProcessor._downsample_timeline`: a sequence within budget is
returned unchanged; otherwise the linspace indices are walked in order with
first-occurrence deduplication and the indexed points are collected. -/
def downsampleTimeline (tl : List α) (m : ℕ) : List α :=
  if tl.length ≤ m then tl
  else (dedupKeep [] (linspaceIdx tl.length m)).filterMap (fun i => tl[i]?)

/-- The replay payload fields the verified claims are about (`duration`,
`bounds` and the echo fields are omitted). -/
structure ReplayTimeline where
  timeline : List ReplayPoint
  max_distance : ℝ

/-- Models `ReplayProcessor.normalize_lap_to_timeline`: an exception while fetching
telemetry yields `None`; an empty table yields `None`; otherwise the initial
point at time 0 is followed by the pair walk, and the timeline is
downsampled to `max_points`. -/
noncomputable def normalizeLapToTimeline (fetch : Except String (List ReplaySample)) :
    Option ReplayTimeline :=
  match fetch with
  | Except.error _ => none
  | Except.ok tel =>
    match tel with
    | [] => none
    | t :: ts =>
      let timeline0 := emitPoint 0 t :: walkPairs 0 (t :: ts)
      some { timeline := downsampleTimeline timeline0 replayMaxPoints
             max_distance := maxDistOf t ts }

/- ## Concrete inputs used by witnesses and counterexamples -/

/-- Witness telemetry: chassis `A`, car 7 has telemetry only for lap 2. -/
def w1Tel : List TelemetryRow := [⟨"A", 7, 2, 0⟩]

/-- Witness Lap Time Records: lap 1 is faster (90 s) than lap 2 (95 s). -/
def w1Laps : List LapTimeRecord := [⟨"A", 7, 1, 90⟩, ⟨"A", 7, 2, 95⟩]

/-- Witness golden lap: lap 2, because the faster lap 1 has no telemetry. -/
def w1Golden : GoldenLap := ⟨"A", 7, 2, 95⟩

/-- Witness joined sector table: sectors 1, 0, 3 have the most negative speed
deltas, sector 2 is the remaining one. -/
def w2Sectors : List SectorComparison :=
  [⟨0, 0, -5, 0, 25⟩, ⟨1, 200, -12, -15, 0⟩, ⟨2, 400, 3, 0, 0⟩, ⟨3, 600, -1, 0, 0⟩]

/-- Counterexample directory: a matching parquet file that is strictly staler
(mtime 0) than the matching csv file (mtime 100). -/
def cx6Parquet : DirFile := ⟨"telemetry_r1.parquet", FileExt.parquet, 0⟩

/-- The fresher matching csv sibling of `cx6Parquet`. -/
def cx6Csv : DirFile := ⟨"telemetry_r1.csv", FileExt.csv, 100⟩

/-- Counterexample lap history: one small lap-to-lap delta (laps 1 → 2,
delta 0) that is not followed by another small delta (laps 2 → 3, delta 1). -/
def cx7Laps : List VehicleLap := [⟨1, 100⟩, ⟨2, 100⟩, ⟨3, 101⟩]

/-- Specification helper: the plateau rule as claimed, applied to a lap
history (walk the lap-ordered rows). -/
def claimPlateauOf (laps : List VehicleLap) : Option ℤ :=
  match laps.insertionSort lapNumLE with
  | [] => none
  | r :: rest => claimPlateau r.lap_time rest

/-- Witness lap history for the amended progression claim. -/
def w7Laps : List VehicleLap := [⟨1, 100⟩, ⟨2, 100⟩]

/-- Teleport-filter witness, first sample: at odometer distance 0 and the
coordinate origin. -/
noncomputable def w5TeleportA : ReplaySample := ⟨0, 100, 0, 0, 0, 0⟩

/-- Teleport-filter witness, second sample: odometer advanced by only 2 m but
the position jumped 200 m (200/1852 angular minutes of longitude). -/
noncomputable def w5TeleportB : ReplaySample := ⟨2, 100, 200 / 1852, 0, 0, 0⟩

/-- Counterexample pair, first sample: odometer 0. -/
noncomputable def cx4SpikeA : ReplaySample := ⟨0, 72, 5, 5, 0, 0⟩

/-- Counterexample pair, second sample: odometer jumped 60 m with no
positional displacement, at constant 72 km/h. -/
noncomputable def cx4SpikeB : ReplaySample := ⟨60, 72, 5, 5, 0, 0⟩

/-- Witness replay sample for the timeline invariants. -/
noncomputable def w4Sample : ReplaySample := ⟨5, 10, 1, 2, 3, 4⟩

/- ## C8: sector bucketing -/

/-- C8: for every telemetry sample at distance `d` and every positive
`sector_size`, both the comparison engine and the hot-zone analytics assign
the sample to sector `floor(d / sector_size)`, and the two assignments
agree. -/
theorem sector_bucketing_deterministic :
    ∀ (d sectorSize : ℚ), 0 < sectorSize →
      compareSectorIndex sectorSize d = ⌊d / sectorSize⌋ ∧
      hotZoneSectorIndex sectorSize d = compareSectorIndex sectorSize d := by
  intro d s _
  refine ⟨?_, rfl⟩
  show pyTrunc (pyFloorDiv d s) = ⌊d / s⌋
  unfold pyTrunc pyFloorDiv
  by_cases h : (0 : ℚ) ≤ ((⌊d / s⌋ : ℤ) : ℚ)
  · rw [if_pos h, Int.floor_intCast]
  · rw [if_neg h, Int.ceil_intCast]

/-- Witness for C8 at the default sector size 200 and distance 450. -/
theorem sector_bucketing_deterministic_witness :
    compareSectorIndex 200 450 = ⌊(450 : ℚ) / 200⌋ ∧
    hotZoneSectorIndex 200 450 = compareSectorIndex 200 450 :=
  sector_bucketing_deterministic 450 200 (by norm_num)

/- ## C3: the sanitizer boundary -/

/-- C3 (code bug): `_to_native` replaces a non-finite native float by `None`,
but a non-finite numpy scalar is unwrapped with `.item()` and returned with
no finiteness check, so a numpy `nan` crosses the comparison-engine boundary
as a bare non-finite float. -/
theorem to_native_numpy_nan_leaks :
    toNative (PyVal.npScalar PyFloat.nan) = PyVal.pfloat PyFloat.nan ∧
    pyIsFinite PyFloat.nan = false ∧
    toNative (PyVal.pfloat PyFloat.nan) = PyVal.pnone ∧
    toNative (PyVal.npArray [PyFloat.inf]) = PyVal.plist [PyVal.pfloat PyFloat.inf] :=
  ⟨rfl, rfl, rfl, rfl⟩

/- ## C10: the replay normalizer never raises for missing or empty telemetry -/

/-- C10: when fetching the lap telemetry raises, or yields an empty table,
`normalize_lap_to_timeline` returns the absent result instead of
propagating. -/
theorem replay_missing_telemetry_spec :
    ∀ (e : String),
      normalizeLapToTimeline (Except.error e) = none ∧
      normalizeLapToTimeline (Except.ok ([] : List ReplaySample)) = none := by
  intro e
  exact ⟨rfl, rfl⟩

/-- Witness for C10 at a concrete fetch error. -/
theorem replay_missing_telemetry_spec_witness :
    normalizeLapToTimeline (Except.error "No telemetry found for lap 3") = none :=
  (replay_missing_telemetry_spec "No telemetry found for lap 3").1

/- ## C5: the two glitch filters of the replay walk -/

/-- C5: for a walked pair with positive distance delta, the teleport filter
(displacement over 50 m and over five times the distance delta) discards the
pair, and the distance-spike filter (distance delta over 50 m and over five
times the displacement) clamps the distance used for the time step down to
the positional displacement. -/
theorem replay_glitch_filters_spec :
    ∀ (a b : ReplaySample), 0 < b.dist - a.dist →
      ((50 < euclDistM a b ∧ (b.dist - a.dist) * 5 < euclDistM a b →
          processStep a b = none) ∧
        (50 < b.dist - a.dist ∧ euclDistM a b * 5 < b.dist - a.dist →
          processStep a b =
            some (if 1 < avgSpeedMs a b then euclDistM a b / avgSpeedMs a b
              else euclDistM a b / 1))) := by
  intro a b hdd
  constructor
  · intro h
    unfold processStep
    rw [if_neg (by linarith), if_pos h]
  · intro h
    have h0 : 0 ≤ euclDistM a b := by
      unfold euclDistM
      positivity
    have hne : ¬(50 < euclDistM a b ∧ (b.dist - a.dist) * 5 < euclDistM a b) := by
      rintro ⟨_, h2⟩
      linarith [h.2]
    unfold processStep timeStepOf
    rw [if_neg (by linarith), if_neg hne]
    have he : effDistance a b = euclDistM a b := by
      unfold effDistance
      rw [if_pos h]
    rw [he]

/-- Witness for C5: two consecutive samples 200 m apart physically but only
2 m apart in odometer distance are discarded. -/
theorem replay_glitch_filters_spec_witness :
    processStep w5TeleportA w5TeleportB = none := by
  have he : euclDistM w5TeleportA w5TeleportB = 200 := by
    unfold euclDistM w5TeleportA w5TeleportB
    rw [show ((0 : ℝ) - 0) ^ 2 + ((200 / 1852 : ℝ) - 0) ^ 2 = (200 / 1852) ^ 2 by ring]
    rw [Real.sqrt_sq (by norm_num)]
    norm_num
  refine (replay_glitch_filters_spec w5TeleportA w5TeleportB ?_).1 ⟨?_, ?_⟩
  · show (0 : ℝ) < w5TeleportB.dist - w5TeleportA.dist
    simp only [w5TeleportA, w5TeleportB]
    norm_num
  · rw [he]
    norm_num
  · rw [he]
    simp only [w5TeleportA, w5TeleportB]
    norm_num

/- ## C6: parquet preference in `_find_data_file` -/

/-- Helper: a non-empty insertion sort has a head that belongs to the input
list. -/
theorem insertionSort_head_mem {α : Type} (r : α → α → Prop) [DecidableRel r]
    (l : List α) (q : α) (t : List α) (h : l.insertionSort r = q :: t) : q ∈ l := by
  have hq : q ∈ l.insertionSort r := by
    rw [h]
    exact List.mem_cons_self q t
  exact (List.mem_insertionSort r).mp hq

/-- Helper: an insertion sort is empty exactly when its input is. -/
theorem insertionSort_eq_nil_iff {α : Type} (r : α → α → Prop) [DecidableRel r]
    (l : List α) : l.insertionSort r = [] ↔ l = [] := by
  constructor
  · intro h
    have hp := List.perm_insertionSort r l
    rw [h] at hp
    exact hp.symm.eq_nil
  · intro h
    subst h
    rfl

/-- Helper: `_find_data_file` with `prefer_parquet` reduced to its two
candidate lists. -/
theorem findDataFile_eq (files : List DirFile) (kind race : String) :
    findDataFile files kind race true =
      (match (files.filter
          (fun f => f.ext == FileExt.parquet && fileMatches kind race f)).insertionSort nameLE with
      | p :: _ => some p
      | [] =>
        ((files.filter
          (fun f => f.ext == FileExt.csv && fileMatches kind race f)).insertionSort nameLE).head?) :=
  rfl

/-- C6 counterexample: with both a matching parquet file and a matching csv
file present and the parquet file strictly staler (mtime 0 against 100),
`_find_data_file` still returns the parquet file: the choice is not governed
by relative freshness, contradicting the claim that the csv would be used. -/
theorem find_data_file_freshness_counterexample :
    findDataFile [cx6Parquet, cx6Csv] "telemetry" "R1" true = some cx6Parquet ∧
    fileMatches "telemetry" "R1" cx6Csv = true ∧
    cx6Parquet.mtime < cx6Csv.mtime :=
  ⟨by decide, by decide, by decide⟩

/-- C6 (amended): whenever any matching parquet candidate exists the lookup
returns a matching parquet file, regardless of modification times; a
matching csv file is returned only when no parquet matches; the lookup fails
only when nothing matches. -/
theorem find_data_file_prefers_parquet :
    ∀ (files : List DirFile) (kind race : String),
      (files.filter (fun f => f.ext == FileExt.parquet && fileMatches kind race f) ≠ [] →
        ∃ q, findDataFile files kind race true = some q ∧ q.ext = FileExt.parquet ∧
          fileMatches kind race q = true ∧ q ∈ files) ∧
      (files.filter (fun f => f.ext == FileExt.parquet && fileMatches kind race f) = [] →
        files.filter (fun f => f.ext == FileExt.csv && fileMatches kind race f) ≠ [] →
        ∃ q, findDataFile files kind race true = some q ∧ q.ext = FileExt.csv ∧
          fileMatches kind race q = true ∧ q ∈ files) ∧
      (files.filter (fun f => f.ext == FileExt.parquet && fileMatches kind race f) = [] →
        files.filter (fun f => f.ext == FileExt.csv && fileMatches kind race f) = [] →
        findDataFile files kind race true = none) := by
  intro files kind race
  refine ⟨?_, ?_, ?_⟩
  · intro hne
    cases hsort : (files.filter
        (fun f => f.ext == FileExt.parquet && fileMatches kind race f)).insertionSort nameLE with
    | nil => exact absurd ((insertionSort_eq_nil_iff nameLE _).mp hsort) hne
    | cons q t =>
      have hqf := insertionSort_head_mem nameLE _ q t hsort
      have hqmem := (List.mem_filter.mp hqf).1
      have hqprop := (List.mem_filter.mp hqf).2
      simp only [Bool.and_eq_true, beq_iff_eq] at hqprop
      refine ⟨q, ?_, hqprop.1, hqprop.2, hqmem⟩
      rw [findDataFile_eq, hsort]
  · intro hpar hne
    have hps : (files.filter
        (fun f => f.ext == FileExt.parquet && fileMatches kind race f)).insertionSort nameLE = [] :=
      (insertionSort_eq_nil_iff nameLE _).mpr hpar
    cases hsort : (files.filter
        (fun f => f.ext == FileExt.csv && fileMatches kind race f)).insertionSort nameLE with
    | nil => exact absurd ((insertionSort_eq_nil_iff nameLE _).mp hsort) hne
    | cons q t =>
      have hqf := insertionSort_head_mem nameLE _ q t hsort
      have hqmem := (List.mem_filter.mp hqf).1
      have hqprop := (List.mem_filter.mp hqf).2
      simp only [Bool.and_eq_true, beq_iff_eq] at hqprop
      refine ⟨q, ?_, hqprop.1, hqprop.2, hqmem⟩
      rw [findDataFile_eq, hps, hsort]
      rfl
  · intro hpar hcsv
    have hps : (files.filter
        (fun f => f.ext == FileExt.parquet && fileMatches kind race f)).insertionSort nameLE = [] :=
      (insertionSort_eq_nil_iff nameLE _).mpr hpar
    have hcs : (files.filter
        (fun f => f.ext == FileExt.csv && fileMatches kind race f)).insertionSort nameLE = [] :=
      (insertionSort_eq_nil_iff nameLE _).mpr hcsv
    rw [findDataFile_eq, hps, hcs]
    rfl

/-- Witness for the amended C6 at a concrete directory with a matching
parquet candidate. -/
theorem find_data_file_prefers_parquet_witness :
    findDataFile [cx6Parquet, cx6Csv] "telemetry" "R1" true ≠ none := by
  obtain ⟨q, hq, -, -, -⟩ :=
    (find_data_file_prefers_parquet [cx6Parquet, cx6Csv] "telemetry" "R1").1 (by decide)
  rw [hq]
  simp

/- ## C1: golden lap selection -/

/-- Helper: the first element of a lap-time-sorted list satisfying a
predicate has a lap time at most that of every satisfying element. -/
theorem sorted_find_min (p : LapTimeRecord → Bool) :
    ∀ (l : List LapTimeRecord), List.Pairwise lapTimeLE l →
      ∀ (g : LapTimeRecord), l.find? p = some g →
      ∀ x ∈ l, p x = true → g.lap_time ≤ x.lap_time := by
  intro l
  induction l with
  | nil =>
    intro _ g hg
    simp at hg
  | cons a t ih =>
    intro hp g hg
    by_cases hpa : p a = true
    · simp only [List.find?, hpa] at hg
      injection hg with h
      subst h
      intro x hx _
      rcases List.mem_cons.mp hx with h | hxt
      · subst h
        exact le_refl _
      · exact (List.rel_of_pairwise_cons hp hxt : lapTimeLE a x)
    · have hpa2 : p a = false := by simpa using hpa
      simp only [List.find?, hpa2] at hg
      intro x hx hpx
      rcases List.mem_cons.mp hx with h | hxt
      · subst h
        exact absurd hpx hpa
      · exact ih (List.Pairwise.of_cons hp) g hg x hxt hpx

/-- C1: a successful golden-lap selection returns a record drawn from the Lap
Time Records whose lap has telemetry and whose time is minimal among the laps
with telemetry (so a faster lap without telemetry is never selected);
selection fails with the NoValidLap-kind error exactly when no Lap Time
Records exist, and with the NoTelemetryAvailable-kind error exactly when
records exist but every candidate lacks telemetry. -/
theorem golden_lap_selection_spec :
    ∀ (lapTimes : List LapTimeRecord) (tel : List TelemetryRow),
      (∀ g, findGoldenLap lapTimes tel = Except.ok g →
        (∃ r ∈ lapTimes, r.chassis = g.chassis ∧ r.car_number = g.car_number ∧
          r.lap = g.lap ∧ r.lap_time = g.time) ∧
        lapHasTelemetry tel g.chassis g.car_number g.lap = true ∧
        (∀ r ∈ lapTimes, lapHasTelemetry tel r.chassis r.car_number r.lap = true →
          g.time ≤ r.lap_time)) ∧
      (lapTimes = [] ↔ findGoldenLap lapTimes tel = Except.error GoldenLapFailure.noValidLap) ∧
      ((lapTimes ≠ [] ∧
          ∀ r ∈ lapTimes, lapHasTelemetry tel r.chassis r.car_number r.lap = false) ↔
        findGoldenLap lapTimes tel = Except.error GoldenLapFailure.noTelemetryAvailable) := by
  intro lapTimes tel
  refine ⟨?_, ?_, ?_⟩
  · intro g hg
    cases lapTimes with
    | nil => simp [findGoldenLap] at hg
    | cons a t =>
      have heq : findGoldenLap (a :: t) tel =
          (match (List.insertionSort lapTimeLE (a :: t)).find?
              (fun c => lapHasTelemetry tel c.chassis c.car_number c.lap) with
          | some g0 => Except.ok ⟨g0.chassis, g0.car_number, g0.lap, g0.lap_time⟩
          | none => Except.error GoldenLapFailure.noTelemetryAvailable) := rfl
      rcases hfind : (List.insertionSort lapTimeLE (a :: t)).find?
          (fun c => lapHasTelemetry tel c.chassis c.car_number c.lap) with _ | g'
      · rw [heq, hfind] at hg
        simp at hg
      · rw [heq, hfind] at hg
        injection hg with hg'
        subst hg'
        have hmem : g' ∈ a :: t :=
          (List.mem_insertionSort lapTimeLE).mp (List.mem_of_find?_eq_some hfind)
        have hsorted : List.Pairwise lapTimeLE (List.insertionSort lapTimeLE (a :: t)) :=
          List.sorted_insertionSort lapTimeLE (a :: t)
        have hmin := sorted_find_min _ _ hsorted g' hfind
        have hptel0 := List.find?_some hfind
        have hptel : lapHasTelemetry tel g'.chassis g'.car_number g'.lap = true := hptel0
        refine ⟨⟨g', hmem, rfl, rfl, rfl, rfl⟩, hptel, ?_⟩
        intro r hr hrt
        exact hmin r ((List.mem_insertionSort lapTimeLE).mpr hr) hrt
  · constructor
    · rintro rfl
      rfl
    · intro h
      cases lapTimes with
      | nil => rfl
      | cons a t =>
        exfalso
        have heq : findGoldenLap (a :: t) tel =
            (match (List.insertionSort lapTimeLE (a :: t)).find?
                (fun c => lapHasTelemetry tel c.chassis c.car_number c.lap) with
            | some g0 => Except.ok ⟨g0.chassis, g0.car_number, g0.lap, g0.lap_time⟩
            | none => Except.error GoldenLapFailure.noTelemetryAvailable) := rfl
        rcases hfind : (List.insertionSort lapTimeLE (a :: t)).find?
            (fun c => lapHasTelemetry tel c.chassis c.car_number c.lap) with _ | g'
        · rw [heq, hfind] at h
          simp at h
        · rw [heq, hfind] at h
          simp at h
  · constructor
    · rintro ⟨hne, hall⟩
      cases lapTimes with
      | nil => exact absurd rfl hne
      | cons a t =>
        have heq : findGoldenLap (a :: t) tel =
            (match (List.insertionSort lapTimeLE (a :: t)).find?
                (fun c => lapHasTelemetry tel c.chassis c.car_number c.lap) with
            | some g0 => Except.ok ⟨g0.chassis, g0.car_number, g0.lap, g0.lap_time⟩
            | none => Except.error GoldenLapFailure.noTelemetryAvailable) := rfl
        have hfind : (List.insertionSort lapTimeLE (a :: t)).find?
            (fun c => lapHasTelemetry tel c.chassis c.car_number c.lap) = none := by
          rw [List.find?_eq_none]
          intro x hx
          have hxl : x ∈ a :: t := (List.mem_insertionSort lapTimeLE).mp hx
          simp [hall x hxl]
        rw [heq, hfind]
    · intro h
      cases lapTimes with
      | nil =>
        exfalso
        simp [findGoldenLap] at h
      | cons a t =>
        have heq : findGoldenLap (a :: t) tel =
            (match (List.insertionSort lapTimeLE (a :: t)).find?
                (fun c => lapHasTelemetry tel c.chassis c.car_number c.lap) with
            | some g0 => Except.ok ⟨g0.chassis, g0.car_number, g0.lap, g0.lap_time⟩
            | none => Except.error GoldenLapFailure.noTelemetryAvailable) := rfl
        rcases hfind : (List.insertionSort lapTimeLE (a :: t)).find?
            (fun c => lapHasTelemetry tel c.chassis c.car_number c.lap) with _ | g'
        · refine ⟨List.cons_ne_nil a t, ?_⟩
          intro r hr
          have hrs : r ∈ List.insertionSort lapTimeLE (a :: t) :=
            (List.mem_insertionSort lapTimeLE).mpr hr
          have := List.find?_eq_none.mp hfind r hrs
          simpa using this
        · exfalso
          rw [heq, hfind] at h
          simp at h

/-- Witness for C1: lap 1 is faster but only lap 2 has telemetry, so lap 2
(95 s) is the golden lap. -/
theorem golden_lap_selection_spec_witness :
    findGoldenLap w1Laps w1Tel = Except.ok w1Golden ∧
    lapHasTelemetry w1Tel "A" 7 2 = true ∧
    lapHasTelemetry w1Tel "A" 7 1 = false := by
  have h : findGoldenLap w1Laps w1Tel = Except.ok w1Golden := rfl
  exact ⟨h, ((golden_lap_selection_spec w1Laps w1Tel).1 w1Golden h).2.1, rfl⟩

/- ## C2: worst-sector recommendations -/

/-- C2: the recommendations are exactly one per selected worst sector (the 3
most negative joined speed deltas, fewer only when fewer sectors are joined):
the selected sectors together with the remaining ones are a permutation of
the joined table and every selected speed delta is at most every remaining
one; each recommendation is classified with the brake-over-throttle-over-
generic priority and its estimated gain is `|speed delta| * 0.04`. -/
theorem compare_recommendations_spec :
    ∀ (cmp : List SectorComparison),
      (recommendationsOf cmp).length = min 3 cmp.length ∧
      recommendationsOf cmp = (worstThreeSectors cmp).map recommendationOf ∧
      List.Perm (worstThreeSectors cmp ++ remainingSectors cmp) cmp ∧
      (∀ w ∈ worstThreeSectors cmp, ∀ t ∈ remainingSectors cmp,
        w.speed_diff ≤ t.speed_diff) ∧
      (∀ s : SectorComparison,
        (recommendationOf s).estimated_gain = |s.speed_diff| * (0.04 : ℚ) ∧
        (recommendationOf s).speed_loss = |s.speed_diff| ∧
        ((recommendationOf s).issue = "Braking too aggressively" ↔ 20 < s.brake_diff) ∧
        ((recommendationOf s).issue = "Hesitant throttle application" ↔
          (¬20 < s.brake_diff ∧ s.throttle_diff < -10)) ∧
        ((recommendationOf s).issue = "Suboptimal corner speed" ↔
          (¬20 < s.brake_diff ∧ ¬s.throttle_diff < -10))) := by
  intro cmp
  have hlen : (recommendationsOf cmp).length = min 3 cmp.length := by
    unfold recommendationsOf worstThreeSectors
    rw [List.length_map, List.length_take, List.length_insertionSort]
  have hperm : List.Perm (worstThreeSectors cmp ++ remainingSectors cmp) cmp := by
    unfold worstThreeSectors remainingSectors
    rw [List.take_append_drop]
    exact List.perm_insertionSort speedDiffLE cmp
  have hsorted : List.Pairwise speedDiffLE (cmp.insertionSort speedDiffLE) :=
    List.sorted_insertionSort speedDiffLE cmp
  have hcross : ∀ w ∈ worstThreeSectors cmp, ∀ t ∈ remainingSectors cmp,
      w.speed_diff ≤ t.speed_diff := by
    have h2 := hsorted
    rw [← List.take_append_drop 3 (cmp.insertionSort speedDiffLE), List.pairwise_append] at h2
    intro w hw t ht
    exact h2.2.2 w hw t ht
  refine ⟨hlen, rfl, hperm, hcross, ?_⟩
  intro s
  have hne1 : ("Braking too aggressively" : String) ≠ "Hesitant throttle application" := by
    decide
  have hne2 : ("Braking too aggressively" : String) ≠ "Suboptimal corner speed" := by decide
  have hne3 : ("Hesitant throttle application" : String) ≠ "Suboptimal corner speed" := by
    decide
  unfold recommendationOf generateRecommendation
  by_cases hb : 20 < s.brake_diff
  · rw [if_pos hb]
    exact ⟨rfl, rfl, ⟨fun _ => hb, fun _ => rfl⟩,
      ⟨fun h => absurd h hne1, fun h => absurd hb h.1⟩,
      ⟨fun h => absurd h hne2, fun h => absurd hb h.1⟩⟩
  · by_cases hthr : s.throttle_diff < -10
    · rw [if_neg hb, if_pos hthr]
      exact ⟨rfl, rfl, ⟨fun h => absurd h hne1.symm, fun h => absurd h hb⟩,
        ⟨fun _ => ⟨hb, hthr⟩, fun _ => rfl⟩,
        ⟨fun h => absurd h hne3, fun h => absurd hthr h.2⟩⟩
    · rw [if_neg hb, if_neg hthr]
      exact ⟨rfl, rfl, ⟨fun h => absurd h hne2.symm, fun h => absurd h hb⟩,
        ⟨fun h => absurd h hne3.symm, fun h => absurd h.2 hthr⟩,
        ⟨fun _ => ⟨hb, hthr⟩, fun _ => rfl⟩⟩

/-- Witness for C2 at a four-sector table: three recommendations are
produced, and the selected sector with delta -12 precedes the unselected
sector with delta 3. -/
theorem compare_recommendations_spec_witness :
    (recommendationsOf w2Sectors).length = min 3 w2Sectors.length ∧
    (⟨1, 200, -12, -15, 0⟩ : SectorComparison).speed_diff ≤
      (⟨2, 400, 3, 0, 0⟩ : SectorComparison).speed_diff := by
  refine ⟨(compare_recommendations_spec w2Sectors).1, ?_⟩
  exact (compare_recommendations_spec w2Sectors).2.2.2.1 _ (by decide) _ (by decide)

/- ## C7: pace plateau detection -/

/-- Helper: full characterization of the plateau scan from an arbitrary
mid-walk state.  For reachable inputs (positive lap numbers, non-zero lap
times) the final `plateau_detected` is non-`None` iff the incoming state
already detected one or some remaining adjacent delta is small; a detected
lap is the incoming detection, the incoming run start, or the later lap of a
small-delta pair; and every detected lap number is positive. -/
theorem progressionSteps_characterization :
    ∀ (l : List VehicleLap) (p : ℚ) (st : PlateauState),
      (∀ v ∈ l, 0 < v.lap ∧ v.lap_time ≠ 0) → p ≠ 0 →
      (∀ k, st.plateau_start = some k → 0 < k) →
      (∀ k, st.plateau_detected = some k → 0 < k) →
      (((progressionSteps (some p) st l).plateau_detected ≠ none) ↔
        (st.plateau_detected ≠ none ∨ hasSmallDelta p l = true)) ∧
      (∀ k, (progressionSteps (some p) st l).plateau_detected = some k →
        (st.plateau_detected = some k ∨ st.plateau_start = some k ∨
          isLaterLapOfSmallPair p l k = true)) ∧
      (∀ k, (progressionSteps (some p) st l).plateau_detected = some k → 0 < k) := by
  intro l
  induction l with
  | nil =>
    intro p st _ _ _ hpd
    refine ⟨by simp [progressionSteps, hasSmallDelta], ?_, ?_⟩
    · intro k hk
      exact Or.inl hk
    · intro k hk
      exact hpd k hk
  | cons r rest ih =>
    intro p st hpos hp hps hpd
    obtain ⟨hrlap, hrtime⟩ := hpos r (List.mem_cons_self r rest)
    have hpos' : ∀ v ∈ rest, 0 < v.lap ∧ v.lap_time ≠ 0 :=
      fun v hv => hpos v (List.mem_cons_of_mem r hv)
    by_cases hsmall : |p - r.lap_time| < (0.1 : ℚ)
    · by_cases hst : pyTruthyOpt st.plateau_start = true
      · have hstep : progressionSteps (some p) st (r :: rest) =
            progressionSteps (some r.lap_time) ⟨st.plateau_start, st.plateau_start⟩ rest := by
          have hco : pyTruthyOpt st.plateau_start = true ∧ |p - r.lap_time| < (0.1 : ℚ) :=
            ⟨hst, hsmall⟩
          simp only [progressionSteps, if_neg hp, if_pos hsmall, if_pos hst, if_pos hco]
        have hpsne : st.plateau_start ≠ none := by
          intro hnone
          rw [hnone] at hst
          simp [pyTruthyOpt] at hst
        obtain ⟨ih1, ih2, ih3⟩ := ih r.lap_time ⟨st.plateau_start, st.plateau_start⟩ hpos'
          hrtime hps hps
        rw [hstep]
        refine ⟨⟨fun _ => Or.inr (by simp [hasSmallDelta, hsmall]),
          fun _ => ih1.mpr (Or.inl hpsne)⟩, ?_, ih3⟩
        intro k hk
        rcases ih2 k hk with h | h | h
        · exact Or.inr (Or.inl h)
        · exact Or.inr (Or.inl h)
        · refine Or.inr (Or.inr ?_)
          simp [isLaterLapOfSmallPair, h]
      · have hrt : pyTruthyOpt (some r.lap) = true := by
          simp [pyTruthyOpt]
          exact ne_of_gt hrlap
        have hstep : progressionSteps (some p) st (r :: rest) =
            progressionSteps (some r.lap_time) ⟨some r.lap, some r.lap⟩ rest := by
          have hco : pyTruthyOpt (some r.lap) = true ∧ |p - r.lap_time| < (0.1 : ℚ) :=
            ⟨hrt, hsmall⟩
          simp only [progressionSteps, if_neg hp, if_pos hsmall, if_neg hst, if_pos hco]
        have hlappos : ∀ k, (some r.lap : Option ℤ) = some k → 0 < k := by
          intro k hk
          rw [← Option.some.inj hk]
          exact hrlap
        obtain ⟨ih1, ih2, ih3⟩ := ih r.lap_time ⟨some r.lap, some r.lap⟩ hpos' hrtime
          hlappos hlappos
        rw [hstep]
        refine ⟨⟨fun _ => Or.inr (by simp [hasSmallDelta, hsmall]),
          fun _ => ih1.mpr (Or.inl (by simp))⟩, ?_, ih3⟩
        intro k hk
        rcases ih2 k hk with h | h | h
        · refine Or.inr (Or.inr ?_)
          have hkr : k = r.lap := (Option.some.inj h).symm
          simp [isLaterLapOfSmallPair, hsmall, hkr]
        · refine Or.inr (Or.inr ?_)
          have hkr : k = r.lap := (Option.some.inj h).symm
          simp [isLaterLapOfSmallPair, hsmall, hkr]
        · refine Or.inr (Or.inr ?_)
          simp [isLaterLapOfSmallPair, h]
    · have hstep : progressionSteps (some p) st (r :: rest) =
          progressionSteps (some r.lap_time) ⟨none, st.plateau_detected⟩ rest := by
        have hco : ¬(pyTruthyOpt (none : Option ℤ) = true ∧ |p - r.lap_time| < (0.1 : ℚ)) := by
          simp [pyTruthyOpt]
        simp only [progressionSteps, if_neg hp, if_neg hsmall, if_neg hco]
      obtain ⟨ih1, ih2, ih3⟩ := ih r.lap_time ⟨none, st.plateau_detected⟩ hpos' hrtime
        (fun k hk => by simp at hk) hpd
      rw [hstep]
      refine ⟨?_, ?_, ih3⟩
      · rw [ih1]
        have hskip : hasSmallDelta p (r :: rest) = hasSmallDelta r.lap_time rest := by
          simp [hasSmallDelta, hsmall]
        rw [hskip]
      · intro k hk
        rcases ih2 k hk with h | h | h
        · exact Or.inl h
        · simp at h
        · refine Or.inr (Or.inr ?_)
          simp [isLaterLapOfSmallPair, h]

/-- C7 (amended): on a reachable lap history (positive lap numbers, non-zero
lap times, walked in lap order) the plateau flag is set iff at least one
adjacent lap-to-lap delta has magnitude under 0.1 s — a single small delta
suffices — and the flagged lap is the later lap of some small-delta adjacent
pair (not the first lap of the earliest two-delta run); the plateau insight
is emitted exactly when the flag is set. -/
theorem progression_plateau_spec :
    ∀ (laps : List VehicleLap) (r : VehicleLap) (rest : List VehicleLap),
      laps.insertionSort lapNumLE = r :: rest →
      (∀ v ∈ laps, 0 < v.lap ∧ v.lap_time ≠ 0) →
      ((plateauDetected laps ≠ none ↔ hasSmallDelta r.lap_time rest = true) ∧
       (∀ k, plateauDetected laps = some k → isLaterLapOfSmallPair r.lap_time rest k = true) ∧
       (plateauInsightEmitted laps = true ↔ plateauDetected laps ≠ none)) := by
  intro laps r rest hsort hpos
  have hposs : ∀ v ∈ r :: rest, 0 < v.lap ∧ v.lap_time ≠ 0 := by
    intro v hv
    apply hpos
    refine (List.mem_insertionSort lapNumLE).mp ?_
    rw [hsort]
    exact hv
  obtain ⟨hr1, hr2⟩ := hposs r (List.mem_cons_self r rest)
  have hstep0 : progressionSteps none ⟨none, none⟩ (r :: rest) =
      progressionSteps (some r.lap_time) ⟨none, none⟩ rest := by
    have hco : ¬(pyTruthyOpt (none : Option ℤ) = true ∧ |(0 : ℚ)| < (0.1 : ℚ)) := by
      simp [pyTruthyOpt]
    simp only [progressionSteps, if_neg hco]
  have hdef : plateauDetected laps =
      (progressionSteps (some r.lap_time) ⟨none, none⟩ rest).plateau_detected := by
    unfold plateauDetected
    rw [hsort, hstep0]
  obtain ⟨a1, a2, a3⟩ := progressionSteps_characterization rest r.lap_time ⟨none, none⟩
    (fun v hv => hposs v (List.mem_cons_of_mem r hv)) hr2
    (fun k hk => by simp at hk) (fun k hk => by simp at hk)
  refine ⟨?_, ?_, ?_⟩
  · rw [hdef, a1]
    simp
  · intro k hk
    rw [hdef] at hk
    rcases a2 k hk with h | h | h
    · simp at h
    · simp at h
    · exact h
  · unfold plateauInsightEmitted
    rw [hdef]
    cases hpd : (progressionSteps (some r.lap_time) ⟨none, none⟩ rest).plateau_detected with
    | none => simp [pyTruthyOpt]
    | some k =>
      have hkpos := a3 k hpd
      simp [pyTruthyOpt, ne_of_gt hkpos]

/-- C7 counterexample: the history laps 1..3 with times 100, 100, 101 has a
single small lap-to-lap delta (laps 1 to 2) that is not followed by another,
yet the code flags a plateau — at lap 2, the later lap of the pair — and
emits the insight, while the claimed rule flags nothing. -/
theorem progression_plateau_counterexample :
    plateauDetected cx7Laps = some 2 ∧
    claimPlateauOf cx7Laps = none ∧
    plateauInsightEmitted cx7Laps = true := by
  have hsort : cx7Laps.insertionSort lapNumLE = cx7Laps := by decide
  refine ⟨?_, ?_, ?_⟩
  · unfold plateauDetected
    rw [hsort]
    norm_num [progressionSteps, pyTruthyOpt, cx7Laps]
  · unfold claimPlateauOf
    rw [hsort]
    norm_num [claimPlateau, cx7Laps]
  · unfold plateauInsightEmitted plateauDetected
    rw [hsort]
    norm_num [progressionSteps, pyTruthyOpt, cx7Laps]

/-- Witness for the amended C7 on the two-lap history with equal times. -/
theorem progression_plateau_spec_witness :
    (plateauDetected w7Laps ≠ none ↔
      hasSmallDelta ((⟨1, 100⟩ : VehicleLap)).lap_time [⟨2, 100⟩] = true) ∧
    (plateauInsightEmitted w7Laps = true ↔ plateauDetected w7Laps ≠ none) := by
  have hsort : w7Laps.insertionSort lapNumLE = ⟨1, 100⟩ :: [⟨2, 100⟩] := by decide
  have h := progression_plateau_spec w7Laps ⟨1, 100⟩ [⟨2, 100⟩] hsort (by decide)
  exact ⟨h.1, h.2.2⟩

/- ## C9: downsampling machinery -/

/-- Helper: deduplication yields a sublist. -/
theorem dedupKeep_sublist [DecidableEq α] :
    ∀ (l seen : List α), List.Sublist (dedupKeep seen l) l := by
  intro l
  induction l with
  | nil =>
    intro seen
    exact List.Sublist.refl []
  | cons x xs ih =>
    intro seen
    show List.Sublist
      (if x ∈ seen then dedupKeep seen xs else x :: dedupKeep (x :: seen) xs) (x :: xs)
    by_cases hx : x ∈ seen
    · rw [if_pos hx]
      exact (ih seen).cons x
    · rw [if_neg hx]
      exact (ih (x :: seen)).cons₂ x

/-- Helper: an element not yet seen survives deduplication. -/
theorem dedupKeep_mem_of [DecidableEq α] :
    ∀ (l seen : List α) (x : α), x ∈ l → x ∉ seen → x ∈ dedupKeep seen l := by
  intro l
  induction l with
  | nil =>
    intro seen x hx
    simp at hx
  | cons y ys ih =>
    intro seen x hx hxs
    show x ∈ (if y ∈ seen then dedupKeep seen ys else y :: dedupKeep (y :: seen) ys)
    by_cases hy : y ∈ seen
    · rw [if_pos hy]
      rcases List.mem_cons.mp hx with rfl | hx'
      · exact absurd hy hxs
      · exact ih seen x hx' hxs
    · rw [if_neg hy]
      by_cases hxy : x = y
      · subst hxy
        exact List.mem_cons_self x _
      · rcases List.mem_cons.mp hx with h | hx'
        · exact absurd h hxy
        · refine List.mem_cons_of_mem y (ih (y :: seen) x hx' ?_)
          intro hmem
          rcases List.mem_cons.mp hmem with h | h
          · exact hxy h
          · exact hxs h

/-- Helper: deduplication avoids the seen accumulator and has no
duplicates. -/
theorem dedupKeep_clean [DecidableEq α] :
    ∀ (l seen : List α), (∀ x ∈ dedupKeep seen l, x ∉ seen) ∧ (dedupKeep seen l).Nodup := by
  intro l
  induction l with
  | nil =>
    intro seen
    constructor
    · intro x hx
      simp [dedupKeep] at hx
    · exact List.nodup_nil
  | cons y ys ih =>
    intro seen
    by_cases hy : y ∈ seen
    · have heq : dedupKeep seen (y :: ys) = dedupKeep seen ys := by
        show (if y ∈ seen then dedupKeep seen ys else y :: dedupKeep (y :: seen) ys) = _
        rw [if_pos hy]
      rw [heq]
      exact ih seen
    · have heq : dedupKeep seen (y :: ys) = y :: dedupKeep (y :: seen) ys := by
        show (if y ∈ seen then dedupKeep seen ys else y :: dedupKeep (y :: seen) ys) = _
        rw [if_neg hy]
      rw [heq]
      obtain ⟨ihm, ihn⟩ := ih (y :: seen)
      constructor
      · intro x hx
        rcases List.mem_cons.mp hx with rfl | hx'
        · exact hy
        · intro hmem
          exact (ihm x hx') (List.mem_cons_of_mem y hmem)
      · rw [List.nodup_cons]
        refine ⟨?_, ihn⟩
        intro hmem
        exact (ihm y hmem) (List.mem_cons_self y seen)

/-- Helper: collecting strictly increasing indices of a list, all at least
`k`, is a sublist of the `k`-dropped list. -/
theorem filterMap_getElem_sublist {α : Type} :
    ∀ (is : List ℕ) (tl : List α) (k : ℕ), List.Pairwise (· < ·) is → (∀ j ∈ is, k ≤ j) →
      List.Sublist (is.filterMap fun i => tl[i]?) (tl.drop k) := by
  intro is
  induction is with
  | nil =>
    intro tl k _ _
    simp
  | cons i it ih =>
    intro tl k hpw hk
    have hit : ∀ j ∈ it, i + 1 ≤ j := by
      intro j hj
      exact List.rel_of_pairwise_cons hpw hj
    have hki : k ≤ i := hk i (List.mem_cons_self _ _)
    rw [List.filterMap_cons]
    cases hgi : tl[i]? with
    | none =>
      have h1 := ih tl (i + 1) hpw.of_cons hit
      have h2 : List.Sublist (tl.drop (i + 1)) (tl.drop k) := by
        have hdd : (tl.drop k).drop (i + 1 - k) = tl.drop (i + 1) := by
          rw [List.drop_drop]
          congr 1
          omega
        rw [← hdd]
        exact List.drop_sublist _ _
      exact h1.trans h2
    | some a =>
      have hlen : i < tl.length := by
        by_contra hlen
        push_neg at hlen
        rw [List.getElem?_eq_none hlen] at hgi
        simp at hgi
      have ha : a = tl[i] := by
        rw [List.getElem?_eq_getElem hlen] at hgi
        exact (Option.some.inj hgi).symm
      have h1 := ih tl (i + 1) hpw.of_cons hit
      have h2 : List.Sublist (a :: it.filterMap fun j => tl[j]?) (tl.drop i) := by
        rw [List.drop_eq_getElem_cons hlen, ← ha]
        exact h1.cons₂ a
      have h3 : List.Sublist (tl.drop i) (tl.drop k) := by
        have hdd : (tl.drop k).drop (i - k) = tl.drop i := by
          rw [List.drop_drop]
          congr 1
          omega
        rw [← hdd]
        exact List.drop_sublist _ _
      exact h2.trans h3

/-- Helper: the linspace indices are non-decreasing for a non-empty source
sequence. -/
theorem linspaceIdx_pairwise_le (n m : ℕ) (hn : 1 ≤ n) :
    List.Pairwise (· ≤ ·) (linspaceIdx n m) := by
  unfold linspaceIdx
  rw [List.pairwise_map]
  refine List.Pairwise.imp_of_mem ?_ (List.pairwise_lt_range m)
  intro a b ha hb hab
  rw [List.mem_range] at ha hb
  have hm2 : 2 ≤ m := by omega
  have hmq : (0 : ℚ) < (m : ℚ) - 1 := by
    have h2 : (2 : ℚ) ≤ (m : ℚ) := by exact_mod_cast hm2
    linarith
  have hnq : (0 : ℚ) ≤ (n : ℚ) - 1 := by
    have h1 : (1 : ℚ) ≤ (n : ℚ) := by exact_mod_cast hn
    linarith
  have habq : (a : ℚ) ≤ (b : ℚ) := by
    exact_mod_cast le_of_lt hab
  apply Int.toNat_le_toNat
  apply Int.floor_le_floor
  apply (div_le_div_right hmq).mpr
  exact mul_le_mul_of_nonneg_right habq hnq

/-- Helper: every linspace index is at most `n - 1`. -/
theorem linspaceIdx_le (n m : ℕ) (hn : 1 ≤ n) : ∀ i ∈ linspaceIdx n m, i ≤ n - 1 := by
  unfold linspaceIdx
  intro i hi
  rw [List.mem_map] at hi
  obtain ⟨j, hj, rfl⟩ := hi
  rw [List.mem_range] at hj
  rcases Nat.lt_or_ge m 2 with hm | hm
  · have hj0 : j = 0 := by omega
    subst hj0
    simp
  · have hmq : (0 : ℚ) < (m : ℚ) - 1 := by
      have h2 : (2 : ℚ) ≤ (m : ℚ) := by exact_mod_cast hm
      linarith
    have hnq : (0 : ℚ) ≤ (n : ℚ) - 1 := by
      have h1 : (1 : ℚ) ≤ (n : ℚ) := by exact_mod_cast hn
      linarith
    have hle : ((j : ℚ) * ((n : ℚ) - 1)) / ((m : ℚ) - 1) ≤ (n : ℚ) - 1 := by
      rw [div_le_iff hmq]
      have hjm : (j : ℚ) ≤ (m : ℚ) - 1 := by
        have hj1 : ((j : ℚ) + 1) ≤ (m : ℚ) := by exact_mod_cast hj
        linarith
      nlinarith
    have hcast : ((n : ℚ) - 1) = (((n - 1 : ℕ) : ℤ) : ℚ) := by
      push_cast [Nat.cast_sub hn]
      ring
    have hfl : ⌊((j : ℚ) * ((n : ℚ) - 1)) / ((m : ℚ) - 1)⌋ ≤ ((n - 1 : ℕ) : ℤ) := by
      calc ⌊((j : ℚ) * ((n : ℚ) - 1)) / ((m : ℚ) - 1)⌋ ≤ ⌊(((n - 1 : ℕ) : ℤ) : ℚ)⌋ := by
            apply Int.floor_le_floor
            rw [← hcast]
            exact hle
        _ = ((n - 1 : ℕ) : ℤ) := Int.floor_intCast _
    exact Int.toNat_le.mpr hfl

/-- Helper: index 0 is always produced when the budget is positive. -/
theorem linspaceIdx_zero_mem (n m : ℕ) (hm : 1 ≤ m) : 0 ∈ linspaceIdx n m := by
  unfold linspaceIdx
  rw [List.mem_map]
  refine ⟨0, ?_, ?_⟩
  · rw [List.mem_range]
    omega
  · simp

/-- Helper: index `n - 1` is produced when the budget is at least 2. -/
theorem linspaceIdx_last_mem (n m : ℕ) (hn : 1 ≤ n) (hm : 2 ≤ m) :
    n - 1 ∈ linspaceIdx n m := by
  unfold linspaceIdx
  rw [List.mem_map]
  refine ⟨m - 1, ?_, ?_⟩
  · rw [List.mem_range]
    omega
  · have hm1 : ((m - 1 : ℕ) : ℚ) = (m : ℚ) - 1 := by
      push_cast [Nat.cast_sub (by omega : 1 ≤ m)]
      ring
    have hmne : ((m : ℚ) - 1) ≠ 0 := by
      have h2 : (2 : ℚ) ≤ (m : ℚ) := by exact_mod_cast hm
      intro hzero
      have hm1' : (m : ℚ) = 1 := sub_eq_zero.mp hzero
      linarith
    have hval : (((m - 1 : ℕ) : ℚ) * ((n : ℚ) - 1)) / ((m : ℚ) - 1) = (n : ℚ) - 1 := by
      rw [hm1, mul_comm, mul_div_assoc, div_self hmne, mul_one]
    rw [hval]
    have hcast : ((n : ℚ) - 1) = (((n - 1 : ℕ) : ℤ) : ℚ) := by
      push_cast [Nat.cast_sub hn]
      ring
    rw [hcast, Int.floor_intCast]
    simp

/-- Helper: the downsampled timeline is a sublist of the input. -/
theorem downsample_sublist {α : Type} (tl : List α) (m : ℕ) :
    List.Sublist (downsampleTimeline tl m) tl := by
  unfold downsampleTimeline
  split_ifs with h
  · exact List.Sublist.refl tl
  · push_neg at h
    have hn : 1 ≤ tl.length := by omega
    have hpw_le : List.Pairwise (· ≤ ·) (dedupKeep [] (linspaceIdx tl.length m)) :=
      (linspaceIdx_pairwise_le _ _ hn).sublist (dedupKeep_sublist _ _)
    have hnd : (dedupKeep [] (linspaceIdx tl.length m)).Nodup := (dedupKeep_clean _ _).2
    have hpw : List.Pairwise (· < ·) (dedupKeep [] (linspaceIdx tl.length m)) :=
      (hpw_le.and hnd).imp (fun hab => lt_of_le_of_ne hab.1 hab.2)
    have hsub := filterMap_getElem_sublist _ tl 0 hpw (fun j _ => Nat.zero_le j)
    simpa using hsub

/-- Helper: the downsampled timeline never exceeds the budget. -/
theorem downsample_length {α : Type} (tl : List α) (m : ℕ) :
    (downsampleTimeline tl m).length ≤ m := by
  unfold downsampleTimeline
  split_ifs with h
  · exact h
  · calc ((dedupKeep [] (linspaceIdx tl.length m)).filterMap fun i => tl[i]?).length
        ≤ (dedupKeep [] (linspaceIdx tl.length m)).length := List.length_filterMap_le _ _
      _ ≤ (linspaceIdx tl.length m).length := (dedupKeep_sublist _ _).length_le
      _ = m := by
          unfold linspaceIdx
          rw [List.length_map, List.length_range]

/-- Helper: first and last survive downsampling for budgets of at least 2. -/
theorem downsample_head_last_mem {α : Type} (tl : List α) (m : ℕ) (h : tl ≠ [])
    (hm : 2 ≤ m) :
    tl.head h ∈ downsampleTimeline tl m ∧ tl.getLast h ∈ downsampleTimeline tl m := by
  unfold downsampleTimeline
  split_ifs with hlen
  · exact ⟨List.head_mem h, List.getLast_mem h⟩
  · push_neg at hlen
    have hn : 1 ≤ tl.length := by omega
    constructor
    · rw [List.mem_filterMap]
      refine ⟨0, ?_, ?_⟩
      · exact dedupKeep_mem_of _ [] 0 (linspaceIdx_zero_mem _ _ (by omega)) (by simp)
      · have h0 : 0 < tl.length := by omega
        rw [List.getElem?_eq_getElem h0]
        rw [List.head_eq_getElem tl h]
    · rw [List.mem_filterMap]
      refine ⟨tl.length - 1, ?_, ?_⟩
      · exact dedupKeep_mem_of _ [] _ (linspaceIdx_last_mem _ _ hn hm) (by simp)
      · have hl : tl.length - 1 < tl.length := by omega
        rw [List.getElem?_eq_getElem hl]
        rw [List.getLast_eq_getElem tl h]

/-- C9: for every input sequence and every point budget of at least 2 (in
particular the configured budget of 4500), downsampling returns at most
budget-many points, returns a within-budget sequence unchanged, and keeps
both the first and the last point of a non-empty sequence. -/
theorem downsample_budget_spec :
    ∀ {α : Type} (tl : List α) (m : ℕ),
      (downsampleTimeline tl m).length ≤ m ∧
      (tl.length ≤ m → downsampleTimeline tl m = tl) ∧
      (∀ h : tl ≠ [], 2 ≤ m →
        tl.head h ∈ downsampleTimeline tl m ∧ tl.getLast h ∈ downsampleTimeline tl m) := by
  intro α tl m
  refine ⟨downsample_length tl m, ?_, ?_⟩
  · intro h
    unfold downsampleTimeline
    rw [if_pos h]
  · intro h hm
    exact downsample_head_last_mem tl m h hm

/-- Witness for C9 on a three-point sequence with budget 3. -/
theorem downsample_budget_spec_witness :
    (10 : ℕ) ∈ downsampleTimeline [10, 20, 30] 3 ∧
    (30 : ℕ) ∈ downsampleTimeline [10, 20, 30] 3 := by
  have h := (downsample_budget_spec [10, 20, 30] 3).2.2 (by decide) (by decide)
  exact ⟨h.1, h.2⟩

/- ## C4: replay timeline invariants -/

/-- Emitted-point time order for the timeline. -/
def timeLE (p q : ReplayPoint) : Prop := p.time ≤ q.time

instance : IsTrans ReplayPoint timeLE := ⟨fun _ _ _ h1 h2 => le_trans h1 h2⟩

/-- Helper: every retained pair contributes a non-negative time step (the
divisor is positive in both speed branches and the effective distance delta
is non-negative, though the spike clamp can make it zero). -/
theorem processStep_nonneg : ∀ (a b : ReplaySample) (dt : ℝ),
    processStep a b = some dt → 0 ≤ dt := by
  intro a b dt h
  unfold processStep at h
  split_ifs at h with h1 h2
  have hdt : dt = timeStepOf a b := (Option.some.inj h).symm
  subst hdt
  have heucl : 0 ≤ euclDistM a b := by
    unfold euclDistM
    positivity
  have hd : 0 ≤ effDistance a b := by
    unfold effDistance
    split_ifs with h3
    · exact heucl
    · push_neg at h1
      linarith
  unfold timeStepOf
  split_ifs with h4
  · exact div_nonneg hd (by linarith)
  · exact div_nonneg hd (by norm_num)

/-- Helper: the walk's points all carry times at least the incoming
accumulator, and their times are non-decreasing along the walk. -/
theorem walkPairs_bound :
    ∀ (l : List ReplaySample) (cum : ℝ),
      (∀ p ∈ walkPairs cum l, cum ≤ p.time) ∧ List.Chain' timeLE (walkPairs cum l) := by
  intro l
  induction l with
  | nil =>
    intro cum
    constructor
    · intro p hp
      simp [walkPairs] at hp
    · simp [walkPairs]
  | cons a l ih =>
    cases l with
    | nil =>
      intro cum
      constructor
      · intro p hp
        simp [walkPairs] at hp
      · simp [walkPairs]
    | cons b rest =>
      intro cum
      cases hstep : processStep a b with
      | none =>
        have heq : walkPairs cum (a :: b :: rest) = walkPairs cum (b :: rest) := by
          simp only [walkPairs, hstep]
        rw [heq]
        exact ih cum
      | some dt =>
        have hdt : 0 ≤ dt := processStep_nonneg a b dt hstep
        have heq : walkPairs cum (a :: b :: rest) =
            emitPoint (cum + dt) b :: walkPairs (cum + dt) (b :: rest) := by
          simp only [walkPairs, hstep]
        rw [heq]
        obtain ⟨ihb, ihc⟩ := ih (cum + dt)
        constructor
        · intro p hp
          rcases List.mem_cons.mp hp with rfl | hp'
          · show cum ≤ cum + dt
            linarith
          · exact le_trans (by linarith) (ihb p hp')
        · rw [List.chain'_cons']
          refine ⟨?_, ihc⟩
          intro q hq
          have hq' : q ∈ walkPairs (cum + dt) (b :: rest) := by
            cases hwp : walkPairs (cum + dt) (b :: rest) with
            | nil =>
              rw [hwp] at hq
              simp at hq
            | cons w ws =>
              rw [hwp] at hq
              simp at hq
              subst hq
              exact List.mem_cons_self _ ws
          show cum + dt ≤ q.time
          exact ihb q hq'

/-- Helper: every walked point carries the distance channel of one of the
input samples. -/
theorem walkPairs_dist :
    ∀ (l : List ReplaySample) (cum : ℝ) (p : ReplayPoint), p ∈ walkPairs cum l →
      ∃ s ∈ l, p.dist = s.dist := by
  intro l
  induction l with
  | nil =>
    intro cum p hp
    simp [walkPairs] at hp
  | cons a l ih =>
    cases l with
    | nil =>
      intro cum p hp
      simp [walkPairs] at hp
    | cons b rest =>
      intro cum p hp
      cases hstep : processStep a b with
      | none =>
        rw [show walkPairs cum (a :: b :: rest) = walkPairs cum (b :: rest) by
          simp only [walkPairs, hstep]] at hp
        obtain ⟨s, hs, hd⟩ := ih cum p hp
        exact ⟨s, List.mem_cons_of_mem a hs, hd⟩
      | some dt =>
        rw [show walkPairs cum (a :: b :: rest) =
            emitPoint (cum + dt) b :: walkPairs (cum + dt) (b :: rest) by
          simp only [walkPairs, hstep]] at hp
        rcases List.mem_cons.mp hp with rfl | hp'
        · exact ⟨b, List.mem_cons_of_mem a (List.mem_cons_self b rest), rfl⟩
        · obtain ⟨s, hs, hd⟩ := ih (cum + dt) p hp'
          exact ⟨s, List.mem_cons_of_mem a hs, hd⟩

/-- Helper: the running maximum is at least its seed. -/
theorem foldl_max_le_init :
    ∀ (ts : List ReplaySample) (init : ℝ),
      init ≤ ts.foldl (fun m s => max m s.dist) init := by
  intro ts
  induction ts with
  | nil =>
    intro init
    simp
  | cons u us ih =>
    intro init
    rw [List.foldl_cons]
    exact le_trans (le_max_left _ _) (ih (max init u.dist))

/-- Helper: the running maximum dominates every member's distance. -/
theorem foldl_max_mem :
    ∀ (ts : List ReplaySample) (init : ℝ) (s : ReplaySample), s ∈ ts →
      s.dist ≤ ts.foldl (fun m s => max m s.dist) init := by
  intro ts
  induction ts with
  | nil =>
    intro init s hs
    simp at hs
  | cons u us ih =>
    intro init s hs
    rw [List.foldl_cons]
    rcases List.mem_cons.mp hs with rfl | hs'
    · exact le_trans (le_max_right _ _) (foldl_max_le_init us (max init s.dist))
    · exact ih (max init u.dist) s hs'

/-- C4 (amended): every replay timeline produced by
`normalize_lap_to_timeline` has non-decreasing time values — each
elapsed-time step added is non-negative (the distance-spike clamp can reduce
the effective distance delta, and hence the step, to zero; the divisor is
always positive) — and every emitted point's distance, in particular the
final one's, is at most the reported `max_distance`. -/
theorem replay_timeline_spec :
    (∀ (fetch : Except String (List ReplaySample)) (r : ReplayTimeline),
      normalizeLapToTimeline fetch = some r →
        List.Chain' timeLE r.timeline ∧ ∀ p ∈ r.timeline, p.dist ≤ r.max_distance) ∧
    (∀ (a b : ReplaySample) (dt : ℝ), processStep a b = some dt → 0 ≤ dt) := by
  refine ⟨?_, processStep_nonneg⟩
  intro fetch r hr
  cases fetch with
  | error e => simp [normalizeLapToTimeline] at hr
  | ok tel =>
    cases tel with
    | nil => simp [normalizeLapToTimeline] at hr
    | cons t ts =>
      have heq : r =
          { timeline :=
              downsampleTimeline (emitPoint 0 t :: walkPairs 0 (t :: ts)) replayMaxPoints
            max_distance := maxDistOf t ts } := (Option.some.inj hr).symm
      subst heq
      have hsub := downsample_sublist (emitPoint 0 t :: walkPairs 0 (t :: ts)) replayMaxPoints
      obtain ⟨hbound, hchain⟩ := walkPairs_bound (t :: ts) 0
      have hchain0 : List.Chain' timeLE (emitPoint 0 t :: walkPairs 0 (t :: ts)) := by
        rw [List.chain'_cons']
        refine ⟨?_, hchain⟩
        intro q hq
        have hq' : q ∈ walkPairs 0 (t :: ts) := by
          cases hwp : walkPairs 0 (t :: ts) with
          | nil =>
            rw [hwp] at hq
            simp at hq
          | cons w ws =>
            rw [hwp] at hq
            simp at hq
            subst hq
            exact List.mem_cons_self _ ws
        show (0 : ℝ) ≤ q.time
        exact hbound q hq'
      constructor
      · rw [List.chain'_iff_pairwise] at hchain0 ⊢
        exact hchain0.sublist hsub
      · intro p hp
        have hp0 : p ∈ emitPoint 0 t :: walkPairs 0 (t :: ts) := hsub.subset hp
        rcases List.mem_cons.mp hp0 with rfl | hpw
        · show t.dist ≤ maxDistOf t ts
          exact foldl_max_le_init ts t.dist
        · obtain ⟨s, hs, hds⟩ := walkPairs_dist (t :: ts) 0 p hpw
          show p.dist ≤ maxDistOf t ts
          rw [hds]
          rcases List.mem_cons.mp hs with rfl | hs'
          · exact foldl_max_le_init ts s.dist
          · exact foldl_max_mem ts t.dist s hs'

/-- Witness for the amended C4 on a one-sample lap: the timeline is the
single initial point and its distance equals the reported maximum. -/
theorem replay_timeline_spec_witness :
    List.Chain' timeLE
      (downsampleTimeline (emitPoint 0 w4Sample :: walkPairs 0 [w4Sample]) replayMaxPoints) :=
  (replay_timeline_spec.1 (Except.ok [w4Sample])
    { timeline := downsampleTimeline (emitPoint 0 w4Sample :: walkPairs 0 [w4Sample])
        replayMaxPoints
      max_distance := maxDistOf w4Sample [] } rfl).1

/-- C4 counterexample to the original wording: a retained pair (positive
odometer delta 60 m) whose positional displacement is zero triggers the
distance-spike clamp, so the added elapsed-time step is 0, not positive, and
two timeline points share the same time. -/
theorem replay_zero_step_counterexample :
    processStep cx4SpikeA cx4SpikeB = some 0 ∧
    (0 : ℝ) < cx4SpikeB.dist - cx4SpikeA.dist := by
  have he : euclDistM cx4SpikeA cx4SpikeB = 0 := by
    unfold euclDistM cx4SpikeA cx4SpikeB
    norm_num
  constructor
  · unfold processStep
    rw [if_neg (by simp only [cx4SpikeA, cx4SpikeB]; norm_num)]
    rw [if_neg (by rw [he]; norm_num)]
    have heff : effDistance cx4SpikeA cx4SpikeB = 0 := by
      unfold effDistance
      rw [if_pos ?_, he]
      rw [he]
      constructor
      · show (50 : ℝ) < cx4SpikeB.dist - cx4SpikeA.dist
        simp only [cx4SpikeA, cx4SpikeB]
        norm_num
      · show (0 : ℝ) * 5 < cx4SpikeB.dist - cx4SpikeA.dist
        simp only [cx4SpikeA, cx4SpikeB]
        norm_num
    have havg : avgSpeedMs cx4SpikeA cx4SpikeB = 20 := by
      unfold avgSpeedMs cx4SpikeA cx4SpikeB
      norm_num
    unfold timeStepOf
    rw [if_pos (by rw [havg]; norm_num), heff]
    norm_num
  · simp only [cx4SpikeA, cx4SpikeB]
    norm_num
